import Mathlib

/-!
Shallow embedding of `src/ExperimentData/analyze_experiments.py`, the boid
experiment analysis script.  Pure Lean models of the summary-file parser
(`load_all_summaries`), the CSV loaders (`load_all_captures`,
`load_all_snapshots`), the per-condition inter-event delta column of
`plot_confusion_effect`, the trend-line guard, and the sorting/extremal
selection of `write_analysis_report`.  File contents are modelled as values
(a list of lines for text artifacts, parsed row lists for CSV artifacts)
wrapped in `Except` to represent per-file read or parse failures; numeric
values are exact rationals.
-/

/-- Whitespace recognized by Python `str.strip()`. -/
def isPySpace (c : Char) : Bool :=
  c == ' ' || c == '\t' || c == '\n' || c == '\r' || c == '\x0b' || c == '\x0c'

/-- Python `str.strip()` on a character list. -/
def pyStripL (s : List Char) : List Char :=
  ((s.dropWhile isPySpace).reverse.dropWhile isPySpace).reverse

/-- Python `str.strip()`. -/
def pyStrip (s : String) : String := ⟨pyStripL s.data⟩

/-- Python substring containment `pat in s` on character lists. -/
def isSubstrOf (pat : List Char) : List Char → Bool
  | [] => pat.isEmpty
  | c :: t => pat.isPrefixOf (c :: t) || isSubstrOf pat t

/-- Python substring containment `pat in s`. -/
def containsSub (pat s : String) : Bool := isSubstrOf pat.data s.data

/-- Python single-character containment `c in s`. -/
def containsChar (c : Char) (s : String) : Bool := s.data.contains c

/-- Python `s.split(c, 1)`: the part before the first occurrence of `c` and
the part after it (the whole string and `[]` when `c` does not occur). -/
def splitFirstL (c : Char) (s : List Char) : List Char × List Char :=
  (s.takeWhile (· != c), (s.dropWhile (· != c)).drop 1)

/-- Python `s.replace(c-as-string, mk-empty)`: delete every occurrence of the
character `c` (this is the blunt `replace of s-with-empty` of line 35). -/
def removeAllChar (c : Char) (s : List Char) : List Char := s.filter (· != c)

/-- Fuel-driven scan behind `removeSubL`: each step consumes at least one
character, so fuel equal to the length of the scanned list suffices. -/
def removeSubFuel (pat : List Char) : ℕ → List Char → List Char
  | 0, s => s
  | _, [] => []
  | n + 1, c :: t =>
    if !pat.isEmpty && pat.isPrefixOf (c :: t) then
      removeSubFuel pat n ((c :: t).drop pat.length)
    else
      c :: removeSubFuel pat n t

/-- Python `s.replace(pat, mk-empty)` for a substring pattern: delete each
non-overlapping occurrence of `pat`, scanning left to right. -/
def removeSubL (pat s : List Char) : List Char :=
  removeSubFuel pat s.length s

/-- Python `s.replace(pat, mk-empty)` on strings. -/
def removeSub (pat s : String) : String := ⟨removeSubL pat.data s.data⟩

/-- Line 35 of the source: the stored value is
`val.strip().replace(the-letter-s, mk-empty).replace(per-minute-suffix, mk-empty)`. -/
def processValue (v : String) : String :=
  removeSub " per minute" ⟨removeAllChar 's' (pyStripL v.data)⟩

/-- Lines 32-36 of `load_all_summaries`: a line is interpreted as a key/value
pair iff it contains a colon and does not contain the separator marker
`===`; it is then split at the first colon, the key is stripped and the
value goes through `processValue`. -/
def parseSummaryLine (line : String) : Option (String × String) :=
  if containsChar ':' line && !(containsSub "===" line) then
    let kv := splitFirstL ':' line.data
    some (⟨pyStripL kv.1⟩, processValue ⟨kv.2⟩)
  else none

/-- Python dict assignment `data[key] = val` on an insertion-ordered
association list: overwrite in place if the key exists, else append. -/
def dictInsert (k v : String) (d : List (String × String)) : List (String × String) :=
  if d.any (fun p => p.1 == k) then
    d.map (fun p => if p.1 == k then (k, v) else p)
  else d ++ [(k, v)]

/-- The per-file loop body of `load_all_summaries` (lines 29-36): fold the
lines of one summary artifact into an insertion-ordered dict. -/
def parseSummary (ls : List String) : List (String × String) :=
  ls.foldl (fun d line =>
    match parseSummaryLine line with
    | some kv => dictInsert kv.1 kv.2 d
    | none => d) []

/-- Value of an all-digit character list. -/
def digitsVal (s : List Char) : ℕ :=
  s.foldl (fun n c => 10 * n + (c.toNat - 48)) 0

/-- Decimal-literal parsing of an unsigned numeral, `none` on anything that
is not a numeral (models the accepting/rejected cases of
`pd.to_numeric(errors=coerce)` on plain decimal strings). -/
def parseUnsigned (s : List Char) : Option ℚ :=
  if s.contains '.' then
    let ip := s.takeWhile (· != '.')
    let fp := (s.dropWhile (· != '.')).drop 1
    if fp.contains '.' then none
    else if (ip.all Char.isDigit && fp.all Char.isDigit) && !(ip.isEmpty && fp.isEmpty) then
      some ((digitsVal ip : ℚ) + (digitsVal fp : ℚ) / (10 : ℚ) ^ fp.length)
    else none
  else if !s.isEmpty && s.all Char.isDigit then some (digitsVal s) else none

/-- Model of `pd.to_numeric(v, errors=coerce)` on one cell: a number on success,
`none` (the missing-value marker NaN) on failure, the empty string included. -/
def pyToNumeric (v : String) : Option ℚ :=
  match pyStripL v.data with
  | '-' :: rest => (parseUnsigned rest).map (fun q => -q)
  | '+' :: rest => parseUnsigned rest
  | s => parseUnsigned s

/-- A cell of the coerced summary DataFrame: a leftover string, a number, or
the missing-value marker (NaN). -/
inductive CVal where
  | str : String → CVal
  | num : ℚ → CVal
  | na : CVal
  deriving DecidableEq

/-- The fixed set of columns coerced by the loop of lines 42-44. -/
def numericCols : List String :=
  ["Initial Boid Count", "Total Duration", "Total Kills", "Capture Rate"]

/-- Lines 41-46: coercion of one cell of column `col` (`none` models a cell
absent from that row, already NaN in the DataFrame).  The four numeric
columns go through `pd.to_numeric(errors=coerce)`; `First Kill Time`
additionally has the literal `N/A` removed first; all other columns keep
their string value. -/
def coerceCell (col : String) (v : Option String) : CVal :=
  match v with
  | none => CVal.na
  | some s =>
    if numericCols.contains col then
      match pyToNumeric s with
      | some q => CVal.num q
      | none => CVal.na
    else if col == "First Kill Time" then
      match pyToNumeric (removeSub "N/A" s) with
      | some q => CVal.num q
      | none => CVal.na
    else CVal.str s

/-- Columns of `pd.DataFrame(summaries)`: union of the record keys in order
of first appearance. -/
def tableColumns (raws : List (List (String × String))) : List String :=
  raws.foldl (fun cols r =>
    r.foldl (fun cs kv => if cs.contains kv.1 then cs else cs ++ [kv.1]) cols) []

/-- The coerced summary DataFrame. -/
structure DF where
  cols : List String
  rows : List (List (String × CVal))
  deriving DecidableEq

/-- Lines 40-47: build the DataFrame from the parsed records and apply the
numeric coercion column-wise (the `if col in df.columns` guards are
automatic here: only columns actually present are materialized, and an
empty record list yields a DataFrame with no columns and no coercion work). -/
def makeDF (raws : List (List (String × String))) : DF :=
  let cols := tableColumns raws
  { cols := cols
    rows := raws.map (fun raw => cols.map (fun c => (c, coerceCell c (List.lookup c raw)))) }

/-- The file loop of `load_all_summaries` (lines 27-38).  Each artifact is
an `Except`: `Except.error` models a file whose `open`/read raises.  The
source has no try/except here, so a read failure propagates out of the
loop; an artifact that parses to zero key/value pairs is dropped. -/
def collectSummaries :
    List (Except String (List String)) → Except String (List (List (String × String)))
  | [] => Except.ok []
  | Except.error e :: _ => Except.error e
  | Except.ok content :: t =>
    match collectSummaries t with
    | Except.error e => Except.error e
    | Except.ok rest =>
      Except.ok (if (parseSummary content).isEmpty then rest else parseSummary content :: rest)

/-- Model of `load_all_summaries` (lines 25-47): read and parse every summary
artifact, then build the coerced DataFrame. -/
def loadAllSummaries (files : List (Except String (List String))) : Except String DF :=
  (collectSummaries files).map makeDF

/-- One row of a captures CSV artifact. -/
structure CaptureRow where
  condition : String
  time_sec : ℚ
  kill_number : ℕ
  boids_in_view : ℚ
  deriving DecidableEq

/-- One row of a snapshots CSV artifact (schema treated opaquely). -/
abbrev SnapRow : Type := List (String × String)

/-- The common body of `load_all_captures` and `load_all_snapshots`
(lines 50-61 and 64-75): each file is a path together with the result of
`pd.read_csv` (`Except.error` models a raised parse failure).  A failing
file appends an `Error loading` message naming its path and is skipped; the
successfully parsed tables are concatenated in order; with zero successes
the result is the empty table. -/
def loadCSVs {α : Type} (files : List (String × Except String (List α))) :
    List α × List String :=
  let acc := files.foldl (fun acc f =>
    match f.2 with
    | Except.ok df => (acc.1 ++ [df], acc.2)
    | Except.error e => (acc.1, acc.2 ++ ["Error loading " ++ f.1 ++ ": " ++ e]))
    ([], [])
  (if acc.1.isEmpty then [] else acc.1.flatten, acc.2)

/-- The log message printed for one failing CSV file (`none` for a file
that parsed). -/
def logMsg {α : Type} (f : String × Except String (List α)) : Option String :=
  match f.2 with
  | Except.error e => some ("Error loading " ++ f.1 ++ ": " ++ e)
  | Except.ok _ => none

/-- Model of `load_all_captures` (lines 50-61). -/
def loadAllCaptures (files : List (String × Except String (List CaptureRow))) :
    List CaptureRow × List String :=
  loadCSVs files

/-- Model of `load_all_snapshots` (lines 64-75). -/
def loadAllSnapshots (files : List (String × Except String (List SnapRow))) :
    List SnapRow × List String :=
  loadCSVs files

/-- The `time_sec` of the latest row of `pre` whose condition is `c`
(`none` when there is none). -/
def prevSame (c : String) (pre : List CaptureRow) : Option ℚ :=
  pre.foldl (fun acc r => if r.condition == c then some r.time_sec else acc) none

/-- Walk the table in row order carrying the rows already seen; each row's
delta is its `time_sec` minus the `time_sec` of the latest earlier row of
the same condition, `none` when there is no such row. -/
def timeDiffAux : List CaptureRow → List CaptureRow → List (Option ℚ)
  | _, [] => []
  | pre, r :: t =>
    (Option.map (fun t0 => r.time_sec - t0) (prevSame r.condition pre)) ::
      timeDiffAux (pre ++ [r]) t

/-- Line 146: `captures.groupby(condition)[time_sec].diff()` — the
per-condition successive-difference column, aligned with the original row
order, `none` (NaN) on the first row of each condition group. -/
def timeDiffCol (rows : List CaptureRow) : List (Option ℚ) := timeDiffAux [] rows

/-- The `time_sec` values of the rows of condition `c`, in row order. -/
def groupTimes (c : String) (rows : List CaptureRow) : List ℚ :=
  (rows.filter (fun r => r.condition == c)).map (fun r => r.time_sec)

/-- The entries of the delta column at the rows of condition `c`, in row
order. -/
def groupDeltas (c : String) (rows : List CaptureRow) : List (Option ℚ) :=
  ((rows.zip (timeDiffCol rows)).filter (fun p => p.1.condition == c)).map (fun p => p.2)

/-- Successive differences of a list of times given the previous time:
the statement-side description of the delta column restricted to one
condition group (first entry undefined, then `t[i] - t[i-1]`). -/
def specDeltasFrom : Option ℚ → List ℚ → List (Option ℚ)
  | _, [] => []
  | prev, t :: ts => (Option.map (fun p => t - p) prev) :: specDeltasFrom (some t) ts

/-- The rows of the captures table zipped with their delta column (the table
after line 146). -/
def withDiff (rows : List CaptureRow) : List (CaptureRow × Option ℚ) :=
  rows.zip (timeDiffCol rows)

/-- Line 160: `captures.dropna(subset=[time_diff])`, projected to the
`(boids_in_view, time_diff)` pairs used by the scatter plot and the fit. -/
def validPoints (rows : List CaptureRow) : List (ℚ × ℚ) :=
  (withDiff rows).filterMap (fun p => Option.map (fun d => (p.1.boids_in_view, d)) p.2)

/-- Model of `np.polyfit(x, y, 1)` over exact rationals: the degree-1 least
squares solution of the normal equations, `(slope, intercept)`. -/
def polyfit1 (pts : List (ℚ × ℚ)) : ℚ × ℚ :=
  let n : ℚ := pts.length
  let sx := (pts.map Prod.fst).sum
  let sy := (pts.map Prod.snd).sum
  let sxx := (pts.map (fun p => p.1 * p.1)).sum
  let sxy := (pts.map (fun p => p.1 * p.2)).sum
  let d := n * sxx - sx * sx
  ((n * sxy - sx * sy) / d, (sy * sxx - sx * sxy) / d)

/-- Lines 160-171: the trend line is fitted over the rows with a defined
delta, and only when there are more than 2 of them (`if len(valid) > 2`);
otherwise it is skipped. -/
def trendLine (rows : List CaptureRow) : Option (ℚ × ℚ) :=
  let valid := validPoints rows
  if 2 < valid.length then some (polyfit1 valid) else none

/-- A Run Record as consumed by `print_summary_table` and
`write_analysis_report`: the projection of one coerced DataFrame row to the
columns those functions read (numeric cells are `Option ℚ`, `none` = NaN). -/
structure RunRecord where
  condition : String
  initial_count : Option ℚ
  first_kill_time : Option ℚ
  capture_rate : Option ℚ
  total_duration : Option ℚ
  deriving DecidableEq

/-- Lexicographic comparison of character lists by code point, the string
order Python uses to compare condition labels. -/
def lexLeb : List Char → List Char → Bool
  | [], _ => true
  | _ :: _, [] => false
  | a :: s, b :: t => if a = b then lexLeb s t else decide (a < b)

/-- Comparison of Run Records by condition label (pandas
`sort_values(Condition)` compares the label strings lexicographically). -/
def runLe (a b : RunRecord) : Prop :=
  lexLeb a.condition.data b.condition.data = true

instance : DecidableRel runLe := fun a b =>
  inferInstanceAs (Decidable (lexLeb a.condition.data b.condition.data = true))

instance : IsTotal RunRecord runLe := by
  constructor
  intro a b
  have h : ∀ s t : List Char, lexLeb s t = true ∨ lexLeb t s = true := by
    intro s
    induction s with
    | nil => intro t; left; rfl
    | cons a s ih =>
      intro t
      cases t with
      | nil => right; rfl
      | cons b t =>
        by_cases hab : a = b
        · subst hab
          simpa [lexLeb] using ih t
        · rcases lt_or_gt_of_ne hab with h1 | h1
          · left; simp [lexLeb, hab, h1]
          · right; simp [lexLeb, Ne.symm hab, h1, not_lt_of_gt h1]
  exact h a.condition.data b.condition.data

instance : IsTrans RunRecord runLe := by
  constructor
  intro a b c hab hbc
  have h : ∀ s t u : List Char,
      lexLeb s t = true → lexLeb t u = true → lexLeb s u = true := by
    intro s
    induction s with
    | nil => intro t u _ _; rfl
    | cons a s ih =>
      intro t u h1 h2
      cases t with
      | nil => simp [lexLeb] at h1
      | cons b t =>
        cases u with
        | nil => simp [lexLeb] at h2
        | cons c u =>
          by_cases h3 : a = b <;> by_cases h4 : b = c
          · subst h3; subst h4
            simp only [lexLeb, if_pos rfl] at h1 h2 ⊢
            exact ih t u h1 h2
          · subst h3
            simp only [lexLeb, if_neg h4, decide_eq_true_eq] at h2 ⊢
            exact h2
          · subst h4
            simp only [lexLeb, if_neg h3, decide_eq_true_eq] at h1 ⊢
            exact h1
          · simp only [lexLeb, if_neg h3, decide_eq_true_eq] at h1
            simp only [lexLeb, if_neg h4, decide_eq_true_eq] at h2
            have h5 : a < c := lt_trans h1 h2
            simp [lexLeb, ne_of_lt h5, h5]
  exact h a.condition.data b.condition.data c.condition.data hab hbc

/-- Lines 221 and 237: `summaries.sort_values(Condition)`. -/
def sortRuns (rows : List RunRecord) : List RunRecord :=
  List.insertionSort runLe rows

/-- Line 272: `df.loc[df[Capture Rate].idxmax()]` — the first row (in the
order of `df`) attaining the maximum capture rate, rows with a missing rate
skipped; paired with that rate. -/
def idxmaxRate : List RunRecord → Option (RunRecord × ℚ)
  | [] => none
  | r :: t =>
    match r.capture_rate, idxmaxRate t with
    | none, res => res
    | some q, none => some (r, q)
    | some q, some bm => if q < bm.2 then some bm else some (r, q)

/-- Line 273: `df.loc[df[Capture Rate].idxmin()]` — the first row attaining
the minimum capture rate, rows with a missing rate skipped. -/
def idxminRate : List RunRecord → Option (RunRecord × ℚ)
  | [] => none
  | r :: t =>
    match r.capture_rate, idxminRate t with
    | none, res => res
    | some q, none => some (r, q)
    | some q, some bm => if bm.2 < q then some bm else some (r, q)

/-- The `fastest` record of `write_analysis_report` (line 272), computed
over the condition-sorted table of line 237. -/
def fastestRecord (rows : List RunRecord) : Option (RunRecord × ℚ) :=
  idxmaxRate (sortRuns rows)

/-- The `slowest` record of `write_analysis_report` (line 273). -/
def slowestRecord (rows : List RunRecord) : Option (RunRecord × ℚ) :=
  idxminRate (sortRuns rows)

/-- The final results table of the report (lines 237 and 245-246): the Run
Records sorted by condition, iterated in order. -/
def reportTable (rows : List RunRecord) : List RunRecord := sortRuns rows

/-- A pandas DataFrame value as seen by `plot_confusion_effect`: the loaded
captures rows plus any extra columns assigned later. -/
structure Frame where
  base : List CaptureRow
  extraCols : List (String × List (Option ℚ))
  deriving DecidableEq

/-- The default (empty) frame. -/
def emptyFrame : Frame := { base := [], extraCols := [] }

/-- Read a frame from the store of live DataFrames (a reference is an index
into the store). -/
def getFrame (s : List Frame) (r : ℕ) : Frame := (s[r]?).getD emptyFrame

/-- Column assignment `df[name] = col`: overwrite the column if present,
else append it. -/
def setExtraCol (k : String) (v : List (Option ℚ)) (cols : List (String × List (Option ℚ))) :
    List (String × List (Option ℚ)) :=
  if cols.any (fun p => p.1 == k) then
    cols.map (fun p => if p.1 == k then (k, v) else p)
  else cols ++ [(k, v)]

/-- Lines 145-146 of `plot_confusion_effect` as a store transformer:
`captures = captures.copy()` allocates a fresh frame holding a copy of the
caller's frame, and `captures[time_diff] = ...diff()` mutates that fresh
frame in place.  The caller's frame is only read. -/
def plotConfusionEffect (s : List Frame) (r : ℕ) : List Frame :=
  let s1 := s ++ [getFrame s r]
  let r1 := s.length
  let f := getFrame s1 r1
  s1.set r1 { f with extraCols := setExtraCol "time_diff" (timeDiffCol f.base) f.extraCols }

/-- A concrete captures table with an interleaved second condition: the
condition `X` rows have `time_sec` 2, 5, 9. -/
def exampleCaptures : List CaptureRow :=
  [⟨"X", 2, 1, 10⟩, ⟨"Y", 4, 1, 3⟩, ⟨"X", 5, 2, 8⟩, ⟨"X", 9, 3, 6⟩]

/-- A single-condition captures table with exactly 2 rows carrying a defined
delta. -/
def smallCaptures : List CaptureRow :=
  [⟨"X", 1, 1, 10⟩, ⟨"X", 2, 2, 8⟩, ⟨"X", 4, 3, 6⟩]

/-- Run Record A1 of the extremal-selection example. -/
def runA1 : RunRecord := ⟨"A1", some 30, some 10, some 4, some 120⟩

/-- Run Record A2 of the extremal-selection example. -/
def runA2 : RunRecord := ⟨"A2", some 50, some 8, some 6, some 100⟩

/-- Run Record B1 of the extremal-selection example. -/
def runB1 : RunRecord := ⟨"B1", some 30, some 20, some 2, some 200⟩

/-- The capture-rate example table {A1: 4.0, A2: 6.0, B1: 2.0}, deliberately
listed out of condition order. -/
def exampleRuns : List RunRecord := [runB1, runA2, runA1]

/-- A single-condition captures table with 3 rows carrying a defined delta. -/
def bigCaptures : List CaptureRow :=
  [⟨"X", 1, 1, 10⟩, ⟨"X", 2, 2, 8⟩, ⟨"X", 4, 3, 6⟩, ⟨"X", 7, 4, 5⟩]

/-- A store holding one loaded captures frame. -/
def exampleStore : List Frame := [{ base := exampleCaptures, extraCols := [] }]

/-- A line yields a key/value pair iff it contains a colon and no `===`. -/
theorem parseSummaryLine_isSome (line : String) :
    (parseSummaryLine line).isSome = true ↔
      (containsChar ':' line = true ∧ containsSub "===" line = false) := by
  simp only [parseSummaryLine]
  split
  · rename_i h
    simp only [Bool.and_eq_true, Bool.not_eq_true'] at h
    simp [h]
  · rename_i h
    simp only [Bool.and_eq_true, Bool.not_eq_true'] at h
    simp only [Option.isSome_none, Bool.false_eq_true, false_iff]
    intro hcontra
    exact h ⟨hcontra.1, hcontra.2⟩

/-- Splitting at the first colon around an explicit colon position. -/
theorem splitFirstL_append (l2 : List Char) :
    ∀ l1 : List Char, ':' ∉ l1 → splitFirstL ':' (l1 ++ ':' :: l2) = (l1, l2) := by
  intro l1
  induction l1 with
  | nil => intro _; simp [splitFirstL]
  | cons c t ih =>
    intro h
    have hc : (c != ':') = true := by
      simp only [bne_iff_ne, ne_eq]
      intro he
      exact h (by simp [he])
    have ht := ih (fun hm => h (List.mem_cons_of_mem _ hm))
    have h1 : List.takeWhile (fun x => x != ':') (t ++ ':' :: l2) = t :=
      congrArg Prod.fst ht
    have h2 : (List.dropWhile (fun x => x != ':') (t ++ ':' :: l2)).drop 1 = l2 :=
      congrArg Prod.snd ht
    simp [splitFirstL, List.takeWhile_cons, List.dropWhile_cons, hc, h1, h2]

/-- C2: a line of a summary artifact is interpreted as a key/value pair iff
it contains a colon and does not contain `===` (so a separator line never
produces a key even when it contains a colon); an interpreted line is split
at the first colon only, the key is whitespace-trimmed and the value is
whitespace-trimmed before the unit-suffix stripping of `processValue`. -/
theorem c2_line_interpretation (line a b : String) :
    ((parseSummaryLine line).isSome = true ↔
      (containsChar ':' line = true ∧ containsSub "===" line = false)) ∧
    (':' ∉ a.data → containsSub "===" (a ++ ":" ++ b) = false →
      parseSummaryLine (a ++ ":" ++ b) = some (pyStrip a, processValue b)) := by
  refine ⟨parseSummaryLine_isSome line, ?_⟩
  intro ha hsep
  have hdata : (a ++ ":" ++ b).data = a.data ++ ':' :: b.data := by
    simp [String.data_append]
  have hcolon : containsChar ':' (a ++ ":" ++ b) = true := by
    simp [containsChar, hdata]
  simp only [parseSummaryLine, hcolon, hsep, Bool.not_false, Bool.and_self, if_true, hdata,
    splitFirstL_append b.data a.data ha]
  rfl

/-- Witness for C2 at a concrete line with an embedded second colon. -/
theorem c2_line_interpretation_witness :
    parseSummaryLine (" Key" ++ ":" ++ " 1:2 ") = some (pyStrip " Key", processValue " 1:2 ") :=
  (c2_line_interpretation " Key" " Key" " 1:2 ").2 (by decide) (by decide)

/-- C1: the value `42.0s` of a duration field is stored as the number 42,
the value `3.5 per minute` of the rate field is stored as the number 3.5,
and the value `N/A` of `First Kill Time` is stored as the missing-value
marker, not as zero and not as a string — both cell-wise and end to end
through `loadAllSummaries`. -/
theorem c1_numeric_coercion :
    processValue "42.0s" = "42.0" ∧
    coerceCell "Total Duration" (some (processValue "42.0s")) = CVal.num 42 ∧
    processValue "3.5 per minute" = "3.5" ∧
    coerceCell "Capture Rate" (some (processValue "3.5 per minute")) = CVal.num (7 / 2) ∧
    processValue "N/A" = "N/A" ∧
    coerceCell "First Kill Time" (some (processValue "N/A")) = CVal.na ∧
    loadAllSummaries [Except.ok ["Condition: A1", "Total Duration: 42.0s",
        "Capture Rate: 3.5 per minute", "First Kill Time: N/A"]] =
      Except.ok (DF.mk ["Condition", "Total Duration", "Capture Rate", "First Kill Time"]
        [[("Condition", CVal.str "A1"), ("Total Duration", CVal.num 42),
          ("Capture Rate", CVal.num (7 / 2)), ("First Kill Time", CVal.na)]]) := by
  refine ⟨rfl, ?_, rfl, ?_, rfl, rfl, ?_⟩
  · have h : coerceCell "Total Duration" (some (processValue "42.0s"))
        = CVal.num ((42 : ℕ) + ((0 : ℕ) : ℚ) / 10 ^ 1) := rfl
    rw [h]
    norm_num
  · have h : coerceCell "Capture Rate" (some (processValue "3.5 per minute"))
        = CVal.num ((3 : ℕ) + ((5 : ℕ) : ℚ) / 10 ^ 1) := rfl
    rw [h]
    norm_num
  · have h : loadAllSummaries [Except.ok ["Condition: A1", "Total Duration: 42.0s",
        "Capture Rate: 3.5 per minute", "First Kill Time: N/A"]] =
        Except.ok (DF.mk ["Condition", "Total Duration", "Capture Rate", "First Kill Time"]
          [[("Condition", CVal.str "A1"),
            ("Total Duration", CVal.num ((42 : ℕ) + ((0 : ℕ) : ℚ) / 10 ^ 1)),
            ("Capture Rate", CVal.num ((3 : ℕ) + ((5 : ℕ) : ℚ) / 10 ^ 1)),
            ("First Kill Time", CVal.na)]]) := rfl
    rw [h]
    norm_num

/-- Appending one row on the right updates the latest-same-condition time. -/
theorem prevSame_append (c : String) (pre : List CaptureRow) (r : CaptureRow) :
    prevSame c (pre ++ [r]) = if r.condition == c then some r.time_sec else prevSame c pre := by
  simp [prevSame, List.foldl_append]

/-- The delta column restricted to one condition group computes successive
differences, for any prefix of already-scanned rows. -/
theorem groupDeltas_aux (c : String) :
    ∀ (rows pre : List CaptureRow),
      (((rows.zip (timeDiffAux pre rows)).filter (fun p => p.1.condition == c)).map
        (fun p => p.2))
        = specDeltasFrom (prevSame c pre)
            ((rows.filter (fun r => r.condition == c)).map (fun r => r.time_sec)) := by
  intro rows
  induction rows with
  | nil => intro pre; simp [timeDiffAux, specDeltasFrom]
  | cons r t ih =>
    intro pre
    by_cases hc : (r.condition == c) = true
    · have hceq : r.condition = c := by simpa using hc
      simp only [timeDiffAux, List.zip_cons_cons, List.filter_cons, hc, List.map_cons,
        specDeltasFrom, ih (pre ++ [r]), prevSame_append, hceq, beq_self_eq_true, if_true]
    · simp only [timeDiffAux, List.zip_cons_cons, List.filter_cons, hc, ih (pre ++ [r]),
        prevSame_append, if_false, Bool.false_eq_true]

/-- C3: for every Capture Event table, grouping rows by condition in their
existing row order, the delta column of line 146 holds
`time_sec[i] - time_sec[i-1]` for each row after the first within its
condition group and a missing value on the first row of each group; on
`time_sec` = [2, 5, 9] for condition `X` (interleaved with another
condition) the deltas are [none, 3, 4] in row order. -/
theorem c3_delta_per_condition (rows : List CaptureRow) (c : String) :
    groupDeltas c rows = specDeltasFrom none (groupTimes c rows) ∧
    groupDeltas "X" exampleCaptures = [none, some 3, some 4] := by
  constructor
  · have h := groupDeltas_aux c rows []
    simpa [groupDeltas, timeDiffCol, groupTimes, prevSame] using h
  · have h : groupDeltas "X" exampleCaptures
        = [none, some ((5 : ℚ) - 2), some ((9 : ℚ) - 5)] := rfl
    rw [h]
    norm_num

/-- Unfolding of the CSV-loader fold: successes accumulate in order, each
failure appends one log message naming its path. -/
theorem loadCSVs_foldl {α : Type} :
    ∀ (files : List (String × Except String (List α))) (acc : List (List α) × List String),
      files.foldl (fun acc f =>
        match f.2 with
        | Except.ok df => (acc.1 ++ [df], acc.2)
        | Except.error e => (acc.1, acc.2 ++ ["Error loading " ++ f.1 ++ ": " ++ e])) acc
      = (acc.1 ++ files.filterMap (fun f => f.2.toOption),
         acc.2 ++ files.filterMap logMsg) := by
  intro files
  induction files with
  | nil => intro acc; simp
  | cons f t ih =>
    intro acc
    obtain ⟨p, fe⟩ := f
    cases fe with
    | ok df =>
      simp only [List.foldl_cons, List.filterMap_cons, Except.toOption, logMsg, ih,
        List.append_assoc, List.singleton_append]
    | error e =>
      simp only [List.foldl_cons, List.filterMap_cons, Except.toOption, logMsg, ih,
        List.append_assoc, List.singleton_append]

/-- The CSV loader returns the concatenation of the successfully parsed
tables and one log line per failing file. -/
theorem loadCSVs_spec {α : Type} (files : List (String × Except String (List α))) :
    (loadCSVs files).1 = (files.filterMap (fun f => f.2.toOption)).flatten ∧
    (loadCSVs files).2 = files.filterMap logMsg := by
  unfold loadCSVs
  rw [loadCSVs_foldl]
  constructor
  · simp only [List.nil_append]
    split
    · rename_i h
      rw [List.isEmpty_iff.mp h]
      rfl
    · rfl
  · simp

/-- C8: the CSV loaders parse each file independently; a failing file is
logged with its path and skipped while the remaining files are loaded in
order; with zero successfully parsed files the loader returns the empty
table instead of raising. -/
theorem c8_csv_loader (cfiles : List (String × Except String (List CaptureRow)))
    (sfiles : List (String × Except String (List SnapRow))) :
    ((loadAllCaptures cfiles).1 = (cfiles.filterMap (fun f => f.2.toOption)).flatten ∧
     (loadAllCaptures cfiles).2 = cfiles.filterMap logMsg ∧
     ((∀ f ∈ cfiles, f.2.toOption = none) → (loadAllCaptures cfiles).1 = [])) ∧
    ((loadAllSnapshots sfiles).1 = (sfiles.filterMap (fun f => f.2.toOption)).flatten ∧
     (loadAllSnapshots sfiles).2 = sfiles.filterMap logMsg ∧
     ((∀ f ∈ sfiles, f.2.toOption = none) → (loadAllSnapshots sfiles).1 = [])) := by
  simp only [loadAllCaptures, loadAllSnapshots]
  have hc := loadCSVs_spec cfiles
  have hs := loadCSVs_spec sfiles
  refine ⟨⟨hc.1, hc.2, ?_⟩, ⟨hs.1, hs.2, ?_⟩⟩
  · intro hall
    rw [hc.1, List.filterMap_eq_nil_iff.mpr (fun f hf => hall f hf)]
    rfl
  · intro hall
    rw [hs.1, List.filterMap_eq_nil_iff.mpr (fun f hf => hall f hf)]
    rfl

/-- Witness for C8: one unparsable captures file and one unparsable
snapshots file yield empty tables, not errors. -/
theorem c8_csv_loader_witness :
    (loadAllCaptures [("a_captures.csv", Except.error "parse failure")]).1 = [] ∧
    (loadAllSnapshots [("a_snapshots.csv", Except.error "parse failure")]).1 = [] :=
  ⟨(c8_csv_loader [("a_captures.csv", Except.error "parse failure")] []).1.2.2 (by decide),
   (c8_csv_loader [] [("a_snapshots.csv", Except.error "parse failure")]).2.2.2 (by decide)⟩

/-- C7 fails on the code: `load_all_summaries` has no per-file error
handling, so a read error on a single summary artifact aborts the whole
batch — the remaining good artifact is never delivered, although on its own
it loads fine. -/
theorem c7_counterexample :
    loadAllSummaries [Except.error "read failure", Except.ok ["Condition: A1"]] =
      Except.error "read failure" ∧
    loadAllSummaries [Except.ok ["Condition: A1"], Except.error "read failure"] =
      Except.error "read failure" ∧
    loadAllSummaries [Except.ok ["Condition: A1"]] =
      Except.ok (DF.mk ["Condition"] [[("Condition", CVal.str "A1")]]) :=
  ⟨rfl, rfl, rfl⟩

/-- C7 amended: an error local to one captures/snapshots CSV artifact never
aborts the batch (the file is skipped and the remaining artifacts still
load), and a summary artifact whose content yields no key/value pair is
skipped; but a read error on a summary artifact propagates and aborts the
summary load. -/
theorem c7_amended (p e : String)
    (cfiles : List (String × Except String (List CaptureRow)))
    (sfiles : List (Except String (List String)))
    (content : List String) :
    (∀ l1 l2, cfiles = l1 ++ [(p, Except.error e)] ++ l2 →
      (loadAllCaptures cfiles).1 = (loadAllCaptures (l1 ++ l2)).1) ∧
    ((parseSummary content).isEmpty = true →
      collectSummaries (Except.ok content :: sfiles) = collectSummaries sfiles) ∧
    collectSummaries (Except.error e :: sfiles) = Except.error e := by
  refine ⟨?_, ?_, rfl⟩
  · intro l1 l2 hdecomp
    subst hdecomp
    simp only [loadAllCaptures]
    rw [(loadCSVs_spec (l1 ++ [(p, Except.error e)] ++ l2)).1, (loadCSVs_spec (l1 ++ l2)).1]
    simp [List.filterMap_append, Except.toOption]
  · intro hempty
    cases hcoll : collectSummaries sfiles with
    | ok rest => simp [collectSummaries, hcoll, hempty]
    | error err => simp [collectSummaries, hcoll]

/-- Witness for C7 amended: a failing captures file among good ones changes
nothing about the loaded rows, and a summary artifact made of separator
lines only is skipped. -/
theorem c7_amended_witness :
    (loadAllCaptures [("a_captures.csv", Except.error "bad"),
      ("b_captures.csv", Except.ok exampleCaptures)]).1 =
      (loadAllCaptures [("b_captures.csv", Except.ok exampleCaptures)]).1 ∧
    collectSummaries [Except.ok ["=== Summary ==="], Except.ok ["Condition: A1"]] =
      collectSummaries [Except.ok ["Condition: A1"]] :=
  ⟨(c7_amended "a_captures.csv" "bad"
      [("a_captures.csv", Except.error "bad"), ("b_captures.csv", Except.ok exampleCaptures)]
      [] []).1 [] [("b_captures.csv", Except.ok exampleCaptures)] rfl,
   (c7_amended "a_captures.csv" "bad" [] [Except.ok ["Condition: A1"]]
      ["=== Summary ==="]).2.1 (by decide)⟩

/-- C9: with zero matching artifacts every loader returns an empty table
and none of them raises; the coercion stage runs on a DataFrame with no
columns and leaves it empty. -/
theorem c9_empty_input :
    loadAllSummaries [] = Except.ok (DF.mk [] []) ∧
    loadAllCaptures [] = ([], []) ∧
    loadAllSnapshots [] = ([], []) ∧
    makeDF [] = DF.mk [] [] :=
  ⟨rfl, rfl, rfl, rfl⟩

/-- C10: the delta computation of `plot_confusion_effect` works on a copy:
the caller's frame is unchanged (same rows, same columns), in particular it
gains no `time_diff` column, so the report generation running afterwards
over the same frame sees it exactly as loaded. -/
theorem c10_frame_copy (s : List Frame) (r : ℕ) (h : r < s.length) :
    getFrame (plotConfusionEffect s r) r = getFrame s r ∧
    (getFrame (plotConfusionEffect s r) r).base = (getFrame s r).base ∧
    (List.lookup "time_diff" (getFrame s r).extraCols = none →
      List.lookup "time_diff" (getFrame (plotConfusionEffect s r) r).extraCols = none) := by
  have hmain : getFrame (plotConfusionEffect s r) r = getFrame s r := by
    unfold plotConfusionEffect getFrame
    rw [List.getElem?_set_ne (Nat.ne_of_gt h), List.getElem?_append]
    rw [if_pos h]
  exact ⟨hmain, by rw [hmain], fun hnone => by rw [hmain]; exact hnone⟩

/-- Witness for C10 on a one-frame store. -/
theorem c10_frame_copy_witness :
    0 < exampleStore.length ∧
    getFrame (plotConfusionEffect exampleStore 0) 0 = getFrame exampleStore 0 :=
  ⟨by decide, (c10_frame_copy exampleStore 0 (by decide)).1⟩

/-- C5: the degree-1 least-squares trend line is computed over exactly the
rows with a defined delta, and only when there are at least 3 of them; with
2 or fewer valid rows it is skipped entirely. -/
theorem c5_trendline_guard (rows : List CaptureRow) :
    ((trendLine rows).isSome = true ↔ 3 ≤ (validPoints rows).length) ∧
    ((validPoints rows).length ≤ 2 → trendLine rows = none) ∧
    (∀ z, trendLine rows = some z → z = polyfit1 (validPoints rows)) := by
  refine ⟨?_, ?_, ?_⟩
  · simp only [trendLine]
    split
    · rename_i h
      simp only [Option.isSome_some, true_iff]
      omega
    · rename_i h
      simp only [Option.isSome_none, Bool.false_eq_true, false_iff]
      omega
  · intro h
    simp only [trendLine]
    rw [if_neg (by omega)]
  · intro z h
    simp only [trendLine] at h
    split at h
    · injection h with h1
      exact h1.symm
    · cases h

/-- Witness for C5: skipped at 2 valid rows, produced at 3 valid rows. -/
theorem c5_trendline_guard_witness :
    trendLine smallCaptures = none ∧ (trendLine bigCaptures).isSome = true :=
  ⟨(c5_trendline_guard smallCaptures).2.1 (by decide),
   (c5_trendline_guard bigCaptures).1.mpr (by decide)⟩

/-- C6: the final results table of the report contains every Run Record of
the input exactly once (it is a permutation, with all multiplicities
preserved) and is sorted ascending by condition label. -/
theorem c6_report_roundtrip (rows : List RunRecord) :
    List.Perm (reportTable rows) rows ∧
    List.Sorted runLe (reportTable rows) ∧
    ∀ r : RunRecord, (reportTable rows).count r = rows.count r := by
  have hperm : List.Perm (reportTable rows) rows := by
    simp only [reportTable, sortRuns]
    exact List.perm_insertionSort runLe rows
  refine ⟨hperm, ?_, fun r => hperm.count_eq r⟩
  simp only [reportTable, sortRuns]
  exact List.sorted_insertionSort runLe rows


/-- When `idxmaxRate` finds nothing, every row's rate is missing. -/
theorem idxmaxRate_none :
    ∀ l : List RunRecord, idxmaxRate l = none → ∀ r ∈ l, r.capture_rate = none := by
  intro l
  induction l with
  | nil => intro _ r hr; cases hr
  | cons a t ih =>
    intro h r hr
    cases ha : a.capture_rate with
    | none =>
      simp only [idxmaxRate, ha] at h
      rcases List.mem_cons.mp hr with rfl | hmem
      · exact ha
      · exact ih h r hmem
    | some qa =>
      exfalso
      cases ht : idxmaxRate t with
      | none =>
        simp only [idxmaxRate, ha, ht] at h
        exact Option.noConfusion h
      | some bm =>
        simp only [idxmaxRate, ha, ht] at h
        split at h <;> simp at h

/-- A result of `idxmaxRate` is a member of the list carrying its rate. -/
theorem idxmaxRate_mem :
    ∀ (l : List RunRecord) (r : RunRecord) (q : ℚ),
      idxmaxRate l = some (r, q) → r ∈ l ∧ r.capture_rate = some q := by
  intro l
  induction l with
  | nil => intro r q h; simp [idxmaxRate] at h
  | cons a t ih =>
    intro r q h
    cases ha : a.capture_rate with
    | none =>
      simp only [idxmaxRate, ha] at h
      rcases ih r q h with ⟨h1, h2⟩
      exact ⟨List.mem_cons_of_mem a h1, h2⟩
    | some qa =>
      cases ht : idxmaxRate t with
      | none =>
        simp only [idxmaxRate, ha, ht, Option.some.injEq, Prod.mk.injEq] at h
        obtain ⟨rfl, rfl⟩ := h
        exact ⟨List.mem_cons_self a t, ha⟩
      | some bm =>
        obtain ⟨b, m⟩ := bm
        simp only [idxmaxRate, ha, ht] at h
        split at h
        · simp only [Option.some.injEq, Prod.mk.injEq] at h
          obtain ⟨rfl, rfl⟩ := h
          rcases ih b m ht with ⟨h1, h2⟩
          exact ⟨List.mem_cons_of_mem a h1, h2⟩
        · simp only [Option.some.injEq, Prod.mk.injEq] at h
          obtain ⟨rfl, rfl⟩ := h
          exact ⟨List.mem_cons_self a t, ha⟩

/-- The rate found by `idxmaxRate` bounds every defined rate in the list. -/
theorem idxmaxRate_le :
    ∀ (l : List RunRecord) (r : RunRecord) (q : ℚ), idxmaxRate l = some (r, q) →
      ∀ rr ∈ l, ∀ qq, rr.capture_rate = some qq → qq ≤ q := by
  intro l
  induction l with
  | nil => intro r q h; simp [idxmaxRate] at h
  | cons a t ih =>
    intro r q h rr hrr qq hqq
    cases ha : a.capture_rate with
    | none =>
      simp only [idxmaxRate, ha] at h
      rcases List.mem_cons.mp hrr with rfl | hmem
      · rw [ha] at hqq; cases hqq
      · exact ih r q h rr hmem qq hqq
    | some qa =>
      cases ht : idxmaxRate t with
      | none =>
        simp only [idxmaxRate, ha, ht, Option.some.injEq, Prod.mk.injEq] at h
        obtain ⟨rfl, rfl⟩ := h
        rcases List.mem_cons.mp hrr with rfl | hmem
        · rw [ha] at hqq
          exact le_of_eq (Option.some.inj hqq).symm
        · rw [idxmaxRate_none t ht rr hmem] at hqq; cases hqq
      | some bm =>
        obtain ⟨b, m⟩ := bm
        simp only [idxmaxRate, ha, ht] at h
        split at h
        · rename_i hlt
          simp only [Option.some.injEq, Prod.mk.injEq] at h
          obtain ⟨rfl, rfl⟩ := h
          rcases List.mem_cons.mp hrr with rfl | hmem
          · rw [ha] at hqq
            exact le_of_lt (lt_of_eq_of_lt (Option.some.inj hqq).symm hlt)
          · exact ih b m ht rr hmem qq hqq
        · rename_i hlt
          push_neg at hlt
          simp only [Option.some.injEq, Prod.mk.injEq] at h
          obtain ⟨rfl, rfl⟩ := h
          rcases List.mem_cons.mp hrr with rfl | hmem
          · rw [ha] at hqq
            exact le_of_eq (Option.some.inj hqq).symm
          · exact le_trans (ih b m ht rr hmem qq hqq) hlt

/-- The row found by `idxmaxRate` is the first attaining its rate: every
earlier row with a defined rate is strictly below it. -/
theorem idxmaxRate_first :
    ∀ (l : List RunRecord) (r : RunRecord) (q : ℚ), idxmaxRate l = some (r, q) →
      ∃ l1 l2, l = l1 ++ r :: l2 ∧
        ∀ rr ∈ l1, ∀ qq, rr.capture_rate = some qq → qq < q := by
  intro l
  induction l with
  | nil => intro r q h; simp [idxmaxRate] at h
  | cons a t ih =>
    intro r q h
    cases ha : a.capture_rate with
    | none =>
      simp only [idxmaxRate, ha] at h
      obtain ⟨l1, l2, hdec, hbound⟩ := ih r q h
      refine ⟨a :: l1, l2, by rw [hdec]; rfl, ?_⟩
      intro rr hrr qq hqq
      rcases List.mem_cons.mp hrr with rfl | hmem
      · rw [ha] at hqq; cases hqq
      · exact hbound rr hmem qq hqq
    | some qa =>
      cases ht : idxmaxRate t with
      | none =>
        simp only [idxmaxRate, ha, ht, Option.some.injEq, Prod.mk.injEq] at h
        obtain ⟨rfl, rfl⟩ := h
        exact ⟨[], t, rfl, fun rr hrr => absurd hrr (List.not_mem_nil rr)⟩
      | some bm =>
        obtain ⟨b, m⟩ := bm
        simp only [idxmaxRate, ha, ht] at h
        split at h
        · rename_i hlt
          simp only [Option.some.injEq, Prod.mk.injEq] at h
          obtain ⟨rfl, rfl⟩ := h
          obtain ⟨l1, l2, hdec, hbound⟩ := ih b m ht
          refine ⟨a :: l1, l2, by rw [hdec]; rfl, ?_⟩
          intro rr hrr qq hqq
          rcases List.mem_cons.mp hrr with rfl | hmem
          · rw [ha] at hqq
            exact lt_of_eq_of_lt (Option.some.inj hqq).symm hlt
          · exact hbound rr hmem qq hqq
        · simp only [Option.some.injEq, Prod.mk.injEq] at h
          obtain ⟨rfl, rfl⟩ := h
          exact ⟨[], t, rfl, fun rr hrr => absurd hrr (List.not_mem_nil rr)⟩

/-- On a non-empty list whose rates are all defined, `idxmaxRate` finds a
row. -/
theorem idxmaxRate_isSome :
    ∀ l : List RunRecord, l ≠ [] → (∀ r ∈ l, (r.capture_rate).isSome = true) →
      (idxmaxRate l).isSome = true := by
  intro l hne hall
  cases l with
  | nil => exact absurd rfl hne
  | cons a t =>
    obtain ⟨qa, hqa⟩ := Option.isSome_iff_exists.mp (hall a (List.mem_cons_self a t))
    cases ht : idxmaxRate t with
    | none => simp [idxmaxRate, hqa, ht]
    | some bm =>
      simp only [idxmaxRate, hqa, ht]
      split <;> rfl

/-- When `idxminRate` finds nothing, every row's rate is missing. -/
theorem idxminRate_none :
    ∀ l : List RunRecord, idxminRate l = none → ∀ r ∈ l, r.capture_rate = none := by
  intro l
  induction l with
  | nil => intro _ r hr; cases hr
  | cons a t ih =>
    intro h r hr
    cases ha : a.capture_rate with
    | none =>
      simp only [idxminRate, ha] at h
      rcases List.mem_cons.mp hr with rfl | hmem
      · exact ha
      · exact ih h r hmem
    | some qa =>
      exfalso
      cases ht : idxminRate t with
      | none =>
        simp only [idxminRate, ha, ht] at h
        exact Option.noConfusion h
      | some bm =>
        simp only [idxminRate, ha, ht] at h
        split at h <;> simp at h

/-- A result of `idxminRate` is a member of the list carrying its rate. -/
theorem idxminRate_mem :
    ∀ (l : List RunRecord) (r : RunRecord) (q : ℚ),
      idxminRate l = some (r, q) → r ∈ l ∧ r.capture_rate = some q := by
  intro l
  induction l with
  | nil => intro r q h; simp [idxminRate] at h
  | cons a t ih =>
    intro r q h
    cases ha : a.capture_rate with
    | none =>
      simp only [idxminRate, ha] at h
      rcases ih r q h with ⟨h1, h2⟩
      exact ⟨List.mem_cons_of_mem a h1, h2⟩
    | some qa =>
      cases ht : idxminRate t with
      | none =>
        simp only [idxminRate, ha, ht, Option.some.injEq, Prod.mk.injEq] at h
        obtain ⟨rfl, rfl⟩ := h
        exact ⟨List.mem_cons_self a t, ha⟩
      | some bm =>
        obtain ⟨b, m⟩ := bm
        simp only [idxminRate, ha, ht] at h
        split at h
        · simp only [Option.some.injEq, Prod.mk.injEq] at h
          obtain ⟨rfl, rfl⟩ := h
          rcases ih b m ht with ⟨h1, h2⟩
          exact ⟨List.mem_cons_of_mem a h1, h2⟩
        · simp only [Option.some.injEq, Prod.mk.injEq] at h
          obtain ⟨rfl, rfl⟩ := h
          exact ⟨List.mem_cons_self a t, ha⟩

/-- The rate found by `idxminRate` is below every defined rate in the
list. -/
theorem idxminRate_le :
    ∀ (l : List RunRecord) (r : RunRecord) (q : ℚ), idxminRate l = some (r, q) →
      ∀ rr ∈ l, ∀ qq, rr.capture_rate = some qq → q ≤ qq := by
  intro l
  induction l with
  | nil => intro r q h; simp [idxminRate] at h
  | cons a t ih =>
    intro r q h rr hrr qq hqq
    cases ha : a.capture_rate with
    | none =>
      simp only [idxminRate, ha] at h
      rcases List.mem_cons.mp hrr with rfl | hmem
      · rw [ha] at hqq; cases hqq
      · exact ih r q h rr hmem qq hqq
    | some qa =>
      cases ht : idxminRate t with
      | none =>
        simp only [idxminRate, ha, ht, Option.some.injEq, Prod.mk.injEq] at h
        obtain ⟨rfl, rfl⟩ := h
        rcases List.mem_cons.mp hrr with rfl | hmem
        · rw [ha] at hqq
          exact le_of_eq (Option.some.inj hqq)
        · rw [idxminRate_none t ht rr hmem] at hqq; cases hqq
      | some bm =>
        obtain ⟨b, m⟩ := bm
        simp only [idxminRate, ha, ht] at h
        split at h
        · rename_i hlt
          simp only [Option.some.injEq, Prod.mk.injEq] at h
          obtain ⟨rfl, rfl⟩ := h
          rcases List.mem_cons.mp hrr with rfl | hmem
          · rw [ha] at hqq
            exact le_of_lt (lt_of_lt_of_eq hlt (Option.some.inj hqq))
          · exact ih b m ht rr hmem qq hqq
        · rename_i hlt
          push_neg at hlt
          simp only [Option.some.injEq, Prod.mk.injEq] at h
          obtain ⟨rfl, rfl⟩ := h
          rcases List.mem_cons.mp hrr with rfl | hmem
          · rw [ha] at hqq
            exact le_of_eq (Option.some.inj hqq)
          · exact le_trans hlt (ih b m ht rr hmem qq hqq)

/-- The row found by `idxminRate` is the first attaining its rate: every
earlier row with a defined rate is strictly above it. -/
theorem idxminRate_first :
    ∀ (l : List RunRecord) (r : RunRecord) (q : ℚ), idxminRate l = some (r, q) →
      ∃ l1 l2, l = l1 ++ r :: l2 ∧
        ∀ rr ∈ l1, ∀ qq, rr.capture_rate = some qq → q < qq := by
  intro l
  induction l with
  | nil => intro r q h; simp [idxminRate] at h
  | cons a t ih =>
    intro r q h
    cases ha : a.capture_rate with
    | none =>
      simp only [idxminRate, ha] at h
      obtain ⟨l1, l2, hdec, hbound⟩ := ih r q h
      refine ⟨a :: l1, l2, by rw [hdec]; rfl, ?_⟩
      intro rr hrr qq hqq
      rcases List.mem_cons.mp hrr with rfl | hmem
      · rw [ha] at hqq; cases hqq
      · exact hbound rr hmem qq hqq
    | some qa =>
      cases ht : idxminRate t with
      | none =>
        simp only [idxminRate, ha, ht, Option.some.injEq, Prod.mk.injEq] at h
        obtain ⟨rfl, rfl⟩ := h
        exact ⟨[], t, rfl, fun rr hrr => absurd hrr (List.not_mem_nil rr)⟩
      | some bm =>
        obtain ⟨b, m⟩ := bm
        simp only [idxminRate, ha, ht] at h
        split at h
        · rename_i hlt
          simp only [Option.some.injEq, Prod.mk.injEq] at h
          obtain ⟨rfl, rfl⟩ := h
          obtain ⟨l1, l2, hdec, hbound⟩ := ih b m ht
          refine ⟨a :: l1, l2, by rw [hdec]; rfl, ?_⟩
          intro rr hrr qq hqq
          rcases List.mem_cons.mp hrr with rfl | hmem
          · rw [ha] at hqq
            exact lt_of_lt_of_eq hlt (Option.some.inj hqq)
          · exact hbound rr hmem qq hqq
        · simp only [Option.some.injEq, Prod.mk.injEq] at h
          obtain ⟨rfl, rfl⟩ := h
          exact ⟨[], t, rfl, fun rr hrr => absurd hrr (List.not_mem_nil rr)⟩

/-- On a non-empty list whose rates are all defined, `idxminRate` finds a
row. -/
theorem idxminRate_isSome :
    ∀ l : List RunRecord, l ≠ [] → (∀ r ∈ l, (r.capture_rate).isSome = true) →
      (idxminRate l).isSome = true := by
  intro l hne hall
  cases l with
  | nil => exact absurd rfl hne
  | cons a t =>
    obtain ⟨qa, hqa⟩ := Option.isSome_iff_exists.mp (hall a (List.mem_cons_self a t))
    cases ht : idxminRate t with
    | none => simp [idxminRate, hqa, ht]
    | some bm =>
      simp only [idxminRate, hqa, ht]
      split <;> rfl

/-- C4: on a non-empty Run Record table with defined rates, the extremal
selection of the report returns a Run Record with the maximum capture rate
as most efficient and one with the minimum as least efficient; exact ties
are broken by the first occurrence in condition-sorted order (every row
before the returned one is strictly worse); on {A1: 4, A2: 6, B1: 2} the
selections are A2 and B1. -/
theorem c4_extremal_selection (rows : List RunRecord) (hne : rows ≠ [])
    (hall : ∀ r ∈ rows, (r.capture_rate).isSome = true) :
    (∃ rmax qmax, fastestRecord rows = some (rmax, qmax) ∧ rmax ∈ rows ∧
      rmax.capture_rate = some qmax ∧
      (∀ r ∈ rows, ∀ q, r.capture_rate = some q → q ≤ qmax) ∧
      (∃ l1 l2, sortRuns rows = l1 ++ rmax :: l2 ∧
        ∀ r ∈ l1, ∀ q, r.capture_rate = some q → q < qmax)) ∧
    (∃ rmin qmin, slowestRecord rows = some (rmin, qmin) ∧ rmin ∈ rows ∧
      rmin.capture_rate = some qmin ∧
      (∀ r ∈ rows, ∀ q, r.capture_rate = some q → qmin ≤ q) ∧
      (∃ l1 l2, sortRuns rows = l1 ++ rmin :: l2 ∧
        ∀ r ∈ l1, ∀ q, r.capture_rate = some q → qmin < q)) ∧
    fastestRecord exampleRuns = some (runA2, 6) ∧
    slowestRecord exampleRuns = some (runB1, 2) := by
  have hperm : List.Perm (sortRuns rows) rows := List.perm_insertionSort runLe rows
  have hne2 : sortRuns rows ≠ [] := by
    intro hnil
    apply hne
    have hlen := hperm.length_eq
    rw [hnil] at hlen
    exact List.eq_nil_of_length_eq_zero hlen.symm
  have hall2 : ∀ r ∈ sortRuns rows, (r.capture_rate).isSome = true :=
    fun r hr => hall r (hperm.mem_iff.mp hr)
  obtain ⟨⟨rmax, qmax⟩, hmax⟩ :=
    Option.isSome_iff_exists.mp (idxmaxRate_isSome (sortRuns rows) hne2 hall2)
  obtain ⟨⟨rmin, qmin⟩, hmin⟩ :=
    Option.isSome_iff_exists.mp (idxminRate_isSome (sortRuns rows) hne2 hall2)
  refine ⟨⟨rmax, qmax, hmax, ?_, ?_, ?_, ?_⟩, ⟨rmin, qmin, hmin, ?_, ?_, ?_, ?_⟩, ?_, ?_⟩
  · exact hperm.mem_iff.mp (idxmaxRate_mem (sortRuns rows) rmax qmax hmax).1
  · exact (idxmaxRate_mem (sortRuns rows) rmax qmax hmax).2
  · exact fun r hr q hq =>
      idxmaxRate_le (sortRuns rows) rmax qmax hmax r (hperm.mem_iff.mpr hr) q hq
  · exact idxmaxRate_first (sortRuns rows) rmax qmax hmax
  · exact hperm.mem_iff.mp (idxminRate_mem (sortRuns rows) rmin qmin hmin).1
  · exact (idxminRate_mem (sortRuns rows) rmin qmin hmin).2
  · exact fun r hr q hq =>
      idxminRate_le (sortRuns rows) rmin qmin hmin r (hperm.mem_iff.mpr hr) q hq
  · exact idxminRate_first (sortRuns rows) rmin qmin hmin
  · decide
  · decide

/-- Witness for C4 on the {A1: 4, A2: 6, B1: 2} table. -/
theorem c4_extremal_selection_witness :
    exampleRuns ≠ [] ∧ fastestRecord exampleRuns = some (runA2, 6) ∧
      slowestRecord exampleRuns = some (runB1, 2) :=
  ⟨by decide,
   (c4_extremal_selection exampleRuns (by decide) (by decide)).2.2.1,
   (c4_extremal_selection exampleRuns (by decide) (by decide)).2.2.2⟩
